import Mathlib

/-!
# Verification of the Zotero feed generator pipeline

A shallow embedding of `generate_feed.py` (the fetch / normalize / serialize
pipeline for the institute's publication feeds).  The Python script's pure
field-normalisation helpers become Lean functions over `String` and
`List Char`; the paginated fetch loop becomes a fuel-indexed recursion over an
abstract page server `Nat → Response` (the server function models
`requests.get` at a given `start` offset with the otherwise fixed query
parameters).  JSON values are modelled at the shapes the script actually
reads: string-valued fields are `Option String` (absent or present), the
`creators` array is a list of creator records.
-/

namespace ZoteroFeed

/-! ## Python string primitives -/

/-- The characters stripped by Python's `str.strip()` (restricted to the ASCII
whitespace characters; the script's data never carries non-ASCII whitespace). -/
def isPySpace (c : Char) : Bool :=
  c = ' ' || c = '\t' || c = '\n' || c = '\r' || c = '\x0b' || c = '\x0c'

/-- Strip leading whitespace from a character list. -/
def stripL (l : List Char) : List Char := l.dropWhile isPySpace

/-- Strip trailing whitespace from a character list. -/
def stripR (l : List Char) : List Char := (l.reverse.dropWhile isPySpace).reverse

/-- Strip whitespace from both ends. -/
def stripList (l : List Char) : List Char := stripR (stripL l)

/-- Python's `str.strip()`. -/
def pyStrip (s : String) : String := ⟨stripList s.data⟩

/-- Python's single-character `str.startswith(c)`, as used for `'('`. -/
def headIs (s : String) (c : Char) : Bool := s.data.head? = some c

/-- Python's single-character `str.endswith(c)`, as used for `')'`. -/
def lastIs (s : String) (c : Char) : Bool := s.data.getLast? = some c

/-- Python's `str.startswith(p)` for a string pattern. -/
def strHasPre (p s : String) : Bool := p.data.isPrefixOf s.data

/-! ## `clean_html` (lines 56-63): strip `<.*?>` tags, decode entities, strip -/

/-- Scan the characters following a `<`: the regex `<.*?>` matches up to the
first `>` provided no newline intervenes (`.` does not match `\n`).  Returns
the remainder after the closing `>` when the tag closes on the same line. -/
def splitTag : List Char → Option (List Char)
  | [] => none
  | c :: rest => if c = '>' then some rest else if c = '\n' then none else splitTag rest

/-- Model of `re.sub('<.*?>', '', s)`: delete every tag-shaped substring.  Fuel-indexed
(with fuel = length of the list) so that the definition reduces by `decide`. -/
def removeTagsGo : Nat → List Char → List Char
  | 0, l => l
  | _ + 1, [] => []
  | n + 1, c :: rest =>
    if c = '<' then
      match splitTag rest with
      | some rest2 => removeTagsGo n rest2
      | none => c :: removeTagsGo n rest
    else c :: removeTagsGo n rest

def removeTags (l : List Char) : List Char := removeTagsGo l.length l

/-- One step of `html.unescape`, restricted to the five standard named
entities (the feed data only ever uses these; the full HTML5 entity table is
out of scope of this embedding). -/
def matchEntity (l : List Char) : Option (Char × List Char) :=
  if ['a','m','p',';'].isPrefixOf l then some ('&', l.drop 4)
  else if ['l','t',';'].isPrefixOf l then some ('<', l.drop 3)
  else if ['g','t',';'].isPrefixOf l then some ('>', l.drop 3)
  else if ['q','u','o','t',';'].isPrefixOf l then some ('"', l.drop 5)
  else if ['a','p','o','s',';'].isPrefixOf l then some ('\'', l.drop 5)
  else none

def unescapeGo : Nat → List Char → List Char
  | 0, l => l
  | _ + 1, [] => []
  | n + 1, c :: rest =>
    if c = '&' then
      match matchEntity rest with
      | some (ch, rest2) => ch :: unescapeGo n rest2
      | none => c :: unescapeGo n rest
    else c :: unescapeGo n rest

/-- The function `clean_html` on a string value: `if not raw_html: return ""`, else remove
tags, decode entities, strip. -/
def cleanHtmlStr (s : String) : String :=
  if s = "" then ""
  else pyStrip ⟨unescapeGo (removeTags s.data).length (removeTags s.data)⟩

/-- The function `clean_html` applied to a JSON field that may be absent (`None`). -/
def cleanHtml : Option String → String
  | none => ""
  | some s => cleanHtmlStr s

/-! ## `extract_year` (lines 65-91) -/

/-- Python `\w` word characters, ASCII restriction. -/
def isWordChar (c : Char) : Bool := c.isAlphanum || c = '_'

/-- Model of `re.search(r'\b(\d{4})\b', s)`: leftmost run of exactly four digits with a
word boundary on each side.  `prev` carries the character immediately before
the current position (none at the start of the string). -/
def yearScan : Option Char → List Char → Option String
  | prev, c1 :: c2 :: c3 :: c4 :: rest =>
    if c1.isDigit && c2.isDigit && c3.isDigit && c4.isDigit
        && (match prev with | some p => !isWordChar p | none => true)
        && (match rest with | r :: _ => !isWordChar r | [] => true) then
      some ⟨[c1, c2, c3, c4]⟩
    else yearScan (some c1) (c2 :: c3 :: c4 :: rest)
  | _, _ => none

/-- The function `extract_year` for a string-or-absent date field.  The script's fallback
branches (numeric input; `strptime` with `%Y-%m-%d`, `%Y-%m`, `%Y`) are dead
for string inputs: `%Y` requires exactly four digits, so any string those
formats accept already matches `\b\d{4}\b` and is returned by the regex. -/
def extractYear : Option String → Option String
  | none => none
  | some s => if s = "" then none else yearScan none s.data

/-! ## `format_authors` (lines 93-122) -/

/-- One entry of the Zotero `creators` array, at the fields the script reads.
`creatorType` is `""` when the key is absent (any non-`"author"` value is
treated identically by the script). -/
structure Creator where
  creatorType : String
  lastName : String
  firstName : String
  name : Option String
deriving DecidableEq

/-- The formatted name contributed by one creator entry, or `none` when the
entry is skipped (non-author role, or no usable name). -/
def formatCreator (c : Creator) : Option String :=
  if c.creatorType = "author" then
    let lastN := pyStrip c.lastName
    let firstN := pyStrip c.firstName
    let nameStr :=
      if lastN ≠ "" ∧ firstN ≠ "" then lastN ++ ", " ++ firstN
      else if lastN ≠ "" then lastN
      else if firstN ≠ "" then firstN
      else match c.name with
        | some n => if n ≠ "" then pyStrip n else ""
        | none => ""
    if nameStr ≠ "" then some nameStr else none
  else none

/-- The function `format_authors`: keep the `author` creators, format each, join with
`"; "`. -/
def formatAuthors (creators : List Creator) : String :=
  String.intercalate "; " (creators.filterMap formatCreator)

/-- Modelled from the spec: the repository's single-author display mode is not
present in `src/generate_feed.py` (the file carries only the all-authors
formatter).  Per the spec: with more than one author remaining after
filtering, produce `"<first author> et al."`; with exactly one, that name
alone; with none, the empty string. -/
def formatAuthorsSingle (creators : List Creator) : String :=
  match creators.filterMap formatCreator with
  | [] => ""
  | [a] => a
  | a :: _ :: _ => a ++ " et al."

/-! ## `urllib.parse.quote` -/

/-- Uppercase hexadecimal digit for a value below 16. -/
def hexDigit (n : Nat) : Char :=
  if n < 10 then Char.ofNat (48 + n) else Char.ofNat (55 + n)

/-- Encode one UTF-8 byte: kept verbatim when unreserved
(`A-Z a-z 0-9 _ . - ~`) or listed in `safe`, else `%XX`. -/
def quoteByte (safe : List Char) (b : UInt8) : List Char :=
  let n := b.toNat
  if (65 ≤ n ∧ n ≤ 90) ∨ (97 ≤ n ∧ n ≤ 122) ∨ (48 ≤ n ∧ n ≤ 57)
      ∨ n = 95 ∨ n = 46 ∨ n = 45 ∨ n = 126
      ∨ (n < 128 ∧ Char.ofNat n ∈ safe) then
    [Char.ofNat n]
  else ['%', hexDigit (n / 16), hexDigit (n % 16)]

/-- Model of `urllib.parse.quote(s, safe)`: percent-encode the UTF-8 bytes of `s`. -/
def pyQuote (s : String) (safe : String) : String :=
  ⟨(s.toUTF8.data.toList.map (quoteByte safe.data)).flatten⟩

/-! ## `urllib.parse.urlparse` / `urlunparse`

Modelled at the level the script needs: scheme split at the first `:` when the
prefix is made of scheme characters, `//netloc` up to the next `/` `?` `#`,
fragment at the first `#`, query at the first `?`, and `;params` split from the
final path segment. -/

structure UrlParts where
  scheme : String
  netloc : String
  path : String
  params : String
  query : String
  fragment : String
deriving DecidableEq

/-- Split a character list at the first occurrence of `c` (separator
dropped); `none` when `c` does not occur. -/
def splitFirst (c : Char) : List Char → Option (List Char × List Char)
  | [] => none
  | x :: rest =>
    if x = c then some ([], rest)
    else match splitFirst c rest with
      | some (a, b) => some (x :: a, b)
      | none => none

def isSchemeChar (c : Char) : Bool := c.isAlphanum || c = '+' || c = '-' || c = '.'

/-- Model of `_splitnetloc`: the netloc runs up to the next `/`, `?` or `#`. -/
def takeNetloc : List Char → List Char × List Char
  | [] => ([], [])
  | c :: rest =>
    if c = '/' ∨ c = '?' ∨ c = '#' then ([], c :: rest)
    else
      let (a, b) := takeNetloc rest
      (c :: a, b)

/-- The final path segment (the characters after the last `/`). -/
def afterLastSlash (l : List Char) : List Char :=
  (l.reverse.takeWhile (fun c => c ≠ '/')).reverse

/-- Model of `_splitparams`: split `;params` off the last path segment. -/
def splitParams (l : List Char) : List Char × List Char :=
  if ';' ∈ l then
    if '/' ∈ l then
      let seg := afterLastSlash l
      if ';' ∈ seg then
        match splitFirst ';' seg with
        | some (a, b) => (l.take (l.length - seg.length) ++ a, b)
        | none => (l, [])
      else (l, [])
    else
      match splitFirst ';' l with
      | some (a, b) => (a, b)
      | none => (l, [])
  else (l, [])

/-- Model of `urllib.parse.urlparse`. -/
def pyUrlparse (s : String) : UrlParts :=
  let l := s.data
  let (scheme, rest) :=
    match splitFirst ':' l with
    | some (a, b) =>
      if a ≠ [] ∧ a.all isSchemeChar ∧ (a.head?.map Char.isAlpha).getD false then
        (a.map Char.toLower, b)
      else ([], l)
    | none => ([], l)
  let (netloc, rest2) :=
    if ['/', '/'].isPrefixOf rest then takeNetloc (rest.drop 2) else ([], rest)
  let (rest3, fragment) :=
    match splitFirst '#' rest2 with
    | some (a, b) => (a, b)
    | none => (rest2, [])
  let (rest4, query) :=
    match splitFirst '?' rest3 with
    | some (a, b) => (a, b)
    | none => (rest3, [])
  let (path, params) := splitParams rest4
  ⟨⟨scheme⟩, ⟨netloc⟩, ⟨path⟩, ⟨params⟩, ⟨query⟩, ⟨fragment⟩⟩

/-- Model of `urllib.parse.urlunparse`. -/
def pyUrlunparse (u : UrlParts) : String :=
  let url := u.path
  let url := if u.params ≠ "" then url ++ ";" ++ u.params else url
  let url :=
    if u.netloc ≠ "" ∨ strHasPre "//" url then
      let url2 := if url ≠ "" ∧ ¬ headIs url '/' then "/" ++ url else url
      "//" ++ u.netloc ++ url2
    else url
  let url := if u.scheme ≠ "" then u.scheme ++ ":" ++ url else url
  let url := if u.query ≠ "" then url ++ "?" ++ u.query else url
  if u.fragment ≠ "" then url ++ "#" ++ u.fragment else url

/-! ## `find_best_link_json` (lines 124-163) -/

/-- Does the list start with `doi` case-insensitively? -/
def matchesDoi : List Char → Bool
  | c1 :: c2 :: c3 :: _ => c1.toLower = 'd' ∧ c2.toLower = 'o' ∧ c3.toLower = 'i'
  | _ => false

/-- One-or-more greedy repetitions of `doi\s*:?\s*/*` at the front of the
list (the matched part of `re.sub(r'^(doi\s*:?\s*/*)+', '', s, IGNORECASE)`).
Each iteration consumes at least the three `doi` characters, so fuel = list
length suffices. -/
def stripDoiGo : Nat → List Char → List Char
  | 0, l => l
  | n + 1, l =>
    if matchesDoi l then
      let l1 := (l.drop 3).dropWhile isPySpace
      let l2 := match l1 with
        | ':' :: r => r
        | _ => l1
      let l3 := (l2.dropWhile isPySpace).dropWhile (fun c => c = '/')
      stripDoiGo n l3
    else l

/-- Strip the leading `doi:`-noise from a DOI string (line 135, before the
trailing `.strip()`). -/
def stripDoiNoise (s : String) : String := ⟨stripDoiGo s.data.length s.data⟩

/-- The metadata object (`item['data']`) at the fields the script reads; each
scalar field is `Option String` (absent = JSON key missing or `null`). -/
structure ItemData where
  key : Option String
  title : Option String
  creators : List Creator
  date : Option String
  DOI : Option String
  url : Option String
  journalAbbreviation : Option String
  publicationTitle : Option String
  volume : Option String
deriving DecidableEq

/-- The DOI branch of `find_best_link_json` (lines 131-151); `none` when the
branch falls through to the URL branch.  The `except` fallback of line 147 is
unreachable in this model because the `urlparse` model never fails. -/
def doiLinkJson (d : ItemData) : Option String :=
  match d.DOI with
  | none => none
  | some doi =>
    if pyStrip doi = "" then none
    else
      let doiText := pyStrip (stripDoiNoise (pyStrip doi))
      if doiText = "" then none
      else
        let safeDoi := pyQuote doiText "/:()._-"
        if strHasPre "http://doi.org/" doiText ∨ strHasPre "https://doi.org/" doiText then
          let parsed := pyUrlparse doiText
          let safePath := pyQuote parsed.path "/:()._-"
          let scheme := if parsed.scheme ≠ "" then parsed.scheme else "https"
          let netloc := if parsed.netloc ≠ "" then parsed.netloc else "doi.org"
          some (pyUrlunparse ⟨scheme, netloc, safePath, parsed.params, parsed.query, parsed.fragment⟩)
        else some ("https://doi.org/" ++ safeDoi)

/-- The URL branch of `find_best_link_json` (lines 152-161); the `except`
fallback of line 161 is unreachable in this model. -/
def urlLinkJson (d : ItemData) : Option String :=
  match d.url with
  | none => none
  | some url =>
    if url = "" then none
    else
      let u := pyStrip url
      if strHasPre "http://" u ∨ strHasPre "https://" u then
        let parsed := pyUrlparse u
        let safePath := pyQuote parsed.path "/:@&=+$,-.%"
        some (pyUrlunparse ⟨parsed.scheme, parsed.netloc, safePath, parsed.params, parsed.query, parsed.fragment⟩)
      else none

/-- The function `find_best_link_json`: the DOI branch returns whenever it produces a
value, else the URL branch, else `None`. -/
def findBestLinkJson (d : ItemData) : Option String :=
  (doiLinkJson d).orElse (fun _ => urlLinkJson d)

/-- Modelled from the spec: `src/generate_feed.py` has no caller-supplied
fallback URL (its `find_best_link_json` ends at `None`); per the spec's
resolution order, a caller-supplied fallback URL, when provided, is used when
both the DOI and URL steps produce nothing. -/
def resolveLinkWithFallback (d : ItemData) (fallback : Option String) : Option String :=
  match findBestLinkJson d with
  | some l => some l
  | none => fallback

/-! ## `get_categories_json` (lines 165-175) -/

/-- The function `get_categories_json`: the single extracted-year category, kept only when
`year` is a non-empty all-digit string of length 4 (`str.isdigit`, ASCII
restriction).  The final `list(set(categories))` is the identity here since
the list never holds more than one element. -/
def getCategoriesJson (year : Option String) : List String :=
  match year with
  | none => []
  | some y => if y ≠ "" ∧ y.data.all Char.isDigit ∧ y.length = 4 then [y] else []

/-! ## `fetch_zotero_items` (lines 177-320) -/

/-- One element of the JSON array returned by the API (`item`), at the fields
the script reads: the top-level `key` and the nested `data` object. -/
structure RawItem where
  key : Option String
  data : ItemData
deriving DecidableEq

/-- The item dictionary appended to `all_items_data` (lines 284-293). -/
structure CanonicalItem where
  zotero_key : Option String
  authors : String
  year : Option String
  title : String
  journal : String
  volume : String
  link : Option String
  categories : List String
deriving DecidableEq

/-- Python's `a or b` on two optional strings (`item.get('key') or
item_data.get('key')`, line 265): the first operand wins unless it is `None`
or the empty string. -/
def pyOrStr : Option String → Option String → Option String
  | some s, b => if s = "" then b else some s
  | none, b => b

/-- Per-item processing (lines 252-296) for a structurally well-shaped record:
extract and normalise each field, then drop the record when the cleaned title
is empty.  The `isinstance` guards and the per-item `except` arm are not
representable for well-typed records and never fire in this model. -/
def processItem (item : RawItem) : Option CanonicalItem :=
  let d := item.data
  let zoteroKey := pyOrStr item.key d.key
  let title := cleanHtml (some (d.title.getD ""))
  let journalAbbr := cleanHtml d.journalAbbreviation
  let pubTitle := cleanHtml d.publicationTitle
  let volume := pyStrip (d.volume.getD "")
  let year := extractYear d.date
  let authorsFormatted := formatAuthors d.creators
  let journalDisplay := if journalAbbr ≠ "" then journalAbbr else pubTitle
  let bestLink := findBestLinkJson d
  let categories := getCategoriesJson year
  if title = "" then none
  else some ⟨zoteroKey, authorsFormatted, year, title, journalDisplay, volume, bestLink, categories⟩

/-- The outcome of one `requests.get` at a given `start` offset.  `netErr` is
a `requests.exceptions.RequestException` raised by the call itself (timeout,
connection error); `http status totalHeader body` is a completed response,
where `totalHeader` is the parsed `Total-Results` header when present (`-1`
standing for an unparsable header, as in line 229) and `body` is the decoded
JSON array (`none` = undecodable body or a non-list response, lines 232-242). -/
inductive Response where
  | netErr : Response
  | http (status : Nat) (totalHeader : Option Int) (body : Option (List RawItem)) : Response

/-- The stop test of line 301: `total_results is not None and total_results
!= -1 and start >= total_results`. -/
def pageStop (total : Option Int) (newStart : Nat) : Prop :=
  match total with
  | some t => t ≠ -1 ∧ t ≤ (newStart : Int)
  | none => False

instance (total : Option Int) (newStart : Nat) : Decidable (pageStop total newStart) := by
  unfold pageStop
  match total with
  | some t => exact instDecidableAnd
  | none => exact instDecidableFalse

/-- The pagination loop of `fetch_zotero_items` (lines 197-317), fuel-indexed
(the Python `while True` has no intrinsic bound; every theorem below supplies
sufficient fuel, and fuel exhaustion is an unreachable `none`).  States, in
source order: 404/403/429 return `None`; `raise_for_status` on any other
`>= 400` status raises a `RequestException` that the outer handler turns into
a break keeping the accumulated items; the `Total-Results` header is read only
while `total` is still unset; an undecodable or non-list body breaks; an empty
page breaks; otherwise the page's records are processed and appended, the
offset advances by the number of records actually returned, and the loop
breaks when the offset reaches the reported total or the page was short. -/
def fetchLoopGo (server : Nat → Response) (limit : Nat) :
    Nat → Nat → Option Int → List CanonicalItem → Option (List CanonicalItem)
  | 0, _, _, _ => none
  | fuel + 1, start, total, acc =>
    match server start with
    | Response.netErr => some acc
    | Response.http status th body =>
      if status = 404 ∨ status = 403 ∨ status = 429 then none
      else if 400 ≤ status then some acc
      else
        let total2 := match total with
          | none => th
          | some t => some t
        match body with
        | none => some acc
        | some items =>
          if items = [] then some acc
          else
            let acc2 := acc ++ items.filterMap processItem
            let start2 := start + items.length
            if pageStop total2 start2 then some acc2
            else if items.length < limit then some acc2
            else fetchLoopGo server limit fuel start2 total2 acc2

/-- The function `fetch_zotero_items`: run the pagination loop from offset 0 with no total
yet and nothing accumulated.  The group id, item type, sort key and direction
parameters only shape the request URL and query string, i.e. they select the
`server` function. -/
def fetchZoteroItems (server : Nat → Response) (limit fuel : Nat) :
    Option (List CanonicalItem) :=
  fetchLoopGo server limit fuel 0 none []

/-- An honest paginated source: a fixed record list served in slices, with a
correct `Total-Results` header and status 200. -/
def sliceServer (recs : List RawItem) (limit : Nat) : Nat → Response :=
  fun start => Response.http 200 (some (recs.length : Int)) (some ((recs.drop start).take limit))

/-! ## The RSS item title of `create_rss_feed` (lines 353-384) -/

/-- The `title_parts` list (lines 357-369): authors when non-empty, the
parenthesised year when present (Python truthiness also drops an empty-string
year), the paper title unconditionally, then journal and volume when
non-empty. -/
def titleParts (it : CanonicalItem) : List String :=
  (if it.authors ≠ "" then [it.authors] else []) ++
  (match it.year with
    | some y => if y ≠ "" then ["(" ++ y ++ ")"] else []
    | none => []) ++
  [it.title] ++
  (if it.journal ≠ "" then [it.journal] else []) ++
  (if it.volume ≠ "" then [it.volume] else [])

/-- The joining loop of lines 372-383: `i` is the `enumerate` index; blank
parts are skipped; the part at index 0 is appended bare; a part starting with
`(` is joined by a single space; otherwise a `.` is inserted first unless the
accumulated string is empty or already ends (after stripping) with `)`. -/
def rssJoinGo : Nat → String → List String → String
  | _, acc, [] => acc
  | i, acc, p :: ps =>
    let pstr := pyStrip p
    if pstr = "" then rssJoinGo (i + 1) acc ps
    else if i = 0 then rssJoinGo (i + 1) (acc ++ pstr) ps
    else if headIs pstr '(' then rssJoinGo (i + 1) (acc ++ " " ++ pstr) ps
    else
      let acc2 := if acc ≠ "" ∧ ¬ lastIs (pyStrip acc) ')' then acc ++ "." else acc
      rssJoinGo (i + 1) (acc2 ++ " " ++ pstr) ps

/-- The `<title>` text of one RSS item: the joined parts, stripped
(line 384). -/
def rssItemTitle (it : CanonicalItem) : String :=
  pyStrip (rssJoinGo 0 "" (titleParts it))

/-! Spec-side restatement of the title rule, used for the refinement claim
about the Feed Writer: the non-empty parts joined by `". "`, except that a
part beginning with `(` is joined by a single space and no period is inserted
after a part ending in `)`. -/

/-- The separator the spec prescribes between a previous part and the next. -/
def specSep (prev p : String) : String :=
  if headIs p '(' then " "
  else if lastIs prev ')' then " "
  else ". "

def specJoinGo : String → String → List String → String
  | _, acc, [] => acc
  | prev, acc, p :: ps => specJoinGo p (acc ++ specSep prev p ++ p) ps

/-- The spec's title: drop empty parts, then fold with `specSep`. -/
def specTitle (parts : List String) : String :=
  match parts.filter (fun p => p != "") with
  | [] => ""
  | p :: ps => specJoinGo p p ps

/-- The raw five-part list named by the spec's title rule:
`authors? "(" year ")"? paperTitle journal? volume?`. -/
def specParts (it : CanonicalItem) : List String :=
  [it.authors,
   (match it.year with | some y => "(" ++ y ++ ")" | none => ""),
   it.title, it.journal, it.volume]

/-! ## Concrete fixtures used by witnesses and counterexamples -/

/-- A metadata object with every field absent. -/
def emptyData : ItemData := ⟨none, none, [], none, none, none, none, none, none⟩

/-- A record with a given raw title and date and nothing else. -/
def mkRec (t : String) (dt : Option String) : RawItem :=
  ⟨some ("K" ++ t), { emptyData with title := some t, date := dt }⟩

def recA : RawItem := mkRec "A" none

/-- The canonical item `recA` turns into. -/
def itemA : CanonicalItem := ⟨some "KA", "", none, "A", "", "", none, []⟩

/-- A source whose first page succeeds with one of two reported records and
whose second request fails at the network level. -/
def partialServer : Nat → Response :=
  fun start => if start = 0 then Response.http 200 (some 2) (some [recA]) else Response.netErr

/-- A source whose first page succeeds with one of two reported records and
whose second request is answered with HTTP 429. -/
def rate429Server : Nat → Response :=
  fun start =>
    if start = 0 then Response.http 200 (some 2) (some [recA]) else Response.http 429 none none

/-- A source that always answers HTTP 404. -/
def srv404 : Nat → Response := fun _ => Response.http 404 none none

/-! ## Claim C2 -/

/-- C2: an HTTP 404 or 403 on the first page makes `fetch_zotero_items`
return `None` (hard failure, zero output for the collection), whereas a
network-level error at any later request returns exactly the items already
accumulated from earlier pages as a partial success.  The third conjunct shows
the later-page case end to end: the first page succeeds with one record, the
second request raises, and the fetch still returns that record. -/
theorem C2_first_page_failure_vs_later_keep (server : Nat → Response) (limit fuel : Nat) :
    (∀ s th b, (s = 404 ∨ s = 403) → server 0 = Response.http s th b →
        fetchZoteroItems server limit (fuel + 1) = none) ∧
    (∀ start total acc, server start = Response.netErr →
        fetchLoopGo server limit (fuel + 1) start total acc = some acc) ∧
    fetchZoteroItems partialServer 1 3 = some [itemA] := by
  refine ⟨?_, ?_, by decide⟩
  · rintro s th b hs h
    unfold fetchZoteroItems fetchLoopGo
    rw [h]
    rcases hs with rfl | rfl <;> simp
  · intro start total acc h
    unfold fetchLoopGo
    rw [h]

theorem C2_witness :
    fetchZoteroItems srv404 100 3 = none ∧
      fetchLoopGo partialServer 1 3 1 (some 2) [itemA] = some [itemA] :=
  ⟨(C2_first_page_failure_vs_later_keep srv404 100 2).1 404 none none (Or.inl rfl) rfl,
   (C2_first_page_failure_vs_later_keep partialServer 1 2).2.1 1 (some 2) [itemA] rfl⟩

/-! ## Claim C10 -/

/-- C10: an HTTP 429 answer at any point of the pagination — in particular on
a page after the first — makes the fetch return `None`, discarding every item
already accumulated.  The second conjunct shows it end to end: a successful
first page followed by a 429 yields `None`, not a partial list. -/
theorem C10_rate_limit_discards (server : Nat → Response) (limit fuel start : Nat)
    (total th : Option Int) (b : Option (List RawItem)) (acc : List CanonicalItem)
    (h : server start = Response.http 429 th b) :
    fetchLoopGo server limit (fuel + 1) start total acc = none ∧
    fetchZoteroItems rate429Server 1 3 = none := by
  refine ⟨?_, by decide⟩
  unfold fetchLoopGo
  rw [h]
  simp

theorem C10_witness :
    fetchLoopGo rate429Server 1 2 1 (some 2) [itemA] = none :=
  (C10_rate_limit_discards rate429Server 1 1 1 (some 2) none none [itemA] rfl).1

/-! ## Claim C4 -/

/-- C4: in single-author mode (modelled from the spec, absent from
`src/generate_feed.py`) the formatter yields `"<first author> et al."` when
more than one author remains after filtering, the lone name when exactly one
remains, and `""` for an empty creators list; on the spec's example the two
modes yield `"Smith, J et al."` and `"Smith, J; Doe, A"` respectively. -/
theorem C4_single_author_mode :
    (∀ cs a b rest, cs.filterMap formatCreator = a :: b :: rest →
        formatAuthorsSingle cs = a ++ " et al.") ∧
    (∀ cs a, cs.filterMap formatCreator = [a] → formatAuthorsSingle cs = a) ∧
    formatAuthorsSingle [] = "" ∧
    formatAuthorsSingle [⟨"author", "Smith", "J", none⟩, ⟨"author", "Doe", "A", none⟩]
      = "Smith, J et al." ∧
    formatAuthors [⟨"author", "Smith", "J", none⟩, ⟨"author", "Doe", "A", none⟩]
      = "Smith, J; Doe, A" := by
  refine ⟨?_, ?_, by decide, by decide, by decide⟩
  · intro cs a b rest h
    unfold formatAuthorsSingle
    rw [h]
  · intro cs a h
    unfold formatAuthorsSingle
    rw [h]

theorem C4_witness :
    formatAuthorsSingle [⟨"author", "Smith", "J", none⟩, ⟨"author", "Doe", "A", none⟩]
      = "Smith, J" ++ " et al." :=
  C4_single_author_mode.1 [⟨"author", "Smith", "J", none⟩, ⟨"author", "Doe", "A", none⟩]
    "Smith, J" "Doe, A" [] (by decide)

/-! ## Claim C5 -/

/-- C5: link resolution tries the DOI field first, then the URL field, then
the caller-supplied fallback (the fallback step modelled from the spec), and
is absent only when all three are missing; in particular, with no DOI and no
URL the resolved link is exactly the supplied fallback. -/
theorem C5_link_priority (d : ItemData) (fb : Option String) :
    (∀ l, doiLinkJson d = some l → resolveLinkWithFallback d fb = some l) ∧
    (doiLinkJson d = none → ∀ l, urlLinkJson d = some l →
        resolveLinkWithFallback d fb = some l) ∧
    (doiLinkJson d = none → urlLinkJson d = none → resolveLinkWithFallback d fb = fb) ∧
    (d.DOI = none → d.url = none → resolveLinkWithFallback d fb = fb) := by
  refine ⟨?_, ?_, ?_, ?_⟩
  · intro l h
    unfold resolveLinkWithFallback findBestLinkJson
    rw [h]
    rfl
  · intro hd l h
    unfold resolveLinkWithFallback findBestLinkJson
    rw [hd]
    simp [Option.orElse, h]
  · intro hd hu
    unfold resolveLinkWithFallback findBestLinkJson
    rw [hd]
    simp [Option.orElse, hu]
  · intro hD hu
    have hd : doiLinkJson d = none := by unfold doiLinkJson; rw [hD]
    have hu2 : urlLinkJson d = none := by unfold urlLinkJson; rw [hu]
    unfold resolveLinkWithFallback findBestLinkJson
    rw [hd]
    simp [Option.orElse, hu2]

theorem C5_witness :
    resolveLinkWithFallback emptyData (some "https://www.zotero.org/groups/5560460")
      = some "https://www.zotero.org/groups/5560460" :=
  (C5_link_priority emptyData (some "https://www.zotero.org/groups/5560460")).2.2.2 rfl rfl

/-! ## Claim C9 -/

/-- C9: the derived category set contains at most one element, and every
element is a well-formed four-digit year string (so every category written to
an artifact matches `^\d{4}$`). -/
theorem C9_categories (year : Option String) :
    (getCategoriesJson year).length ≤ 1 ∧
    ∀ c ∈ getCategoriesJson year, c.length = 4 ∧ c.data.all Char.isDigit = true := by
  cases year with
  | none => exact ⟨by simp [getCategoriesJson], by simp [getCategoriesJson]⟩
  | some y =>
    have hg : getCategoriesJson (some y)
        = if y ≠ "" ∧ y.data.all Char.isDigit ∧ y.length = 4 then [y] else [] := rfl
    rw [hg]
    split
    · next h =>
      refine ⟨by simp, ?_⟩
      intro c hc
      rw [List.mem_singleton] at hc
      subst hc
      exact ⟨h.2.2, h.2.1⟩
    · exact ⟨by simp, by simp⟩

theorem C9_witness :
    (getCategoriesJson (some "2020")).length ≤ 1 ∧
      ("2020" : String).length = 4 ∧ ("2020" : String).data.all Char.isDigit = true :=
  ⟨(C9_categories (some "2020")).1, (C9_categories (some "2020")).2 "2020" (by decide)⟩

/-! ## Claim C7 -/

/-- C7: when the DOI field, after stripping the leading `doi:`/slash/space
noise case-insensitively, is non-empty and is not already a `doi.org` URL, the
resolved link is `https://doi.org/` followed by the percent-encoding of the
cleaned DOI with `/:()._-` left unescaped.  The witness instantiates the
spec's example `"doi: 10.5194/acp-12-857-2012"`. -/
theorem C7_doi_link (d : ItemData) (doi : String)
    (hdoi : d.DOI = some doi)
    (hne : pyStrip (stripDoiNoise (pyStrip doi)) ≠ "")
    (h1 : strHasPre "http://doi.org/" (pyStrip (stripDoiNoise (pyStrip doi))) = false)
    (h2 : strHasPre "https://doi.org/" (pyStrip (stripDoiNoise (pyStrip doi))) = false) :
    findBestLinkJson d
      = some ("https://doi.org/" ++ pyQuote (pyStrip (stripDoiNoise (pyStrip doi))) "/:()._-") := by
  have hs : pyStrip doi ≠ "" := by
    intro h
    exact hne (by rw [h]; decide)
  unfold findBestLinkJson doiLinkJson
  rw [hdoi]
  simp only [if_neg hs, if_neg hne, h1, h2, false_or, Bool.false_eq_true, if_false, if_neg]
  rfl

def doiSample : ItemData := { emptyData with DOI := some "doi: 10.5194/acp-12-857-2012" }

theorem C7_witness :
    findBestLinkJson doiSample = some "https://doi.org/10.5194/acp-12-857-2012" :=
  (C7_doi_link doiSample "doi: 10.5194/acp-12-857-2012" rfl (by decide) (by decide)
    (by decide)).trans (by decide)

/-! ## Claim C6 -/

/-- Any item `process_item` emits carries a non-empty title (the line 279
check). -/
theorem processItem_title_ne (r : RawItem) (it : CanonicalItem)
    (h : processItem r = some it) : it.title ≠ "" := by
  simp only [processItem] at h
  split at h
  · exact absurd h (by simp)
  · next hne =>
    injection h with h
    subst h
    exact hne

/-- Per-item processing drops a record exactly when its cleaned title is empty. -/
theorem processItem_eq_none_iff (r : RawItem) :
    processItem r = none ↔ cleanHtml (some (r.data.title.getD "")) = "" := by
  simp only [processItem]
  split
  · next h => simp [h]
  · next h => simp [h]

/-- The non-empty-title invariant is preserved through the pagination loop. -/
theorem fetchLoopGo_titles (server : Nat → Response) (limit : Nat) :
    ∀ fuel start total acc res,
      (∀ it ∈ acc, it.title ≠ "") →
      fetchLoopGo server limit fuel start total acc = some res →
      ∀ it ∈ res, it.title ≠ "" := by
  intro fuel
  induction fuel with
  | zero =>
    intro start total acc res hacc h
    simp [fetchLoopGo] at h
  | succ n ih =>
    intro start total acc res hacc h
    cases hsrv : server start with
    | netErr =>
      simp only [fetchLoopGo, hsrv] at h
      injection h with h
      subst h
      exact hacc
    | http status th body =>
      simp only [fetchLoopGo, hsrv] at h
      by_cases h404 : status = 404 ∨ status = 403 ∨ status = 429
      · rw [if_pos h404] at h
        exact absurd h (by simp)
      · rw [if_neg h404] at h
        by_cases h400 : 400 ≤ status
        · rw [if_pos h400] at h
          injection h with h
          subst h
          exact hacc
        · rw [if_neg h400] at h
          split at h
          · injection h with h
            subst h
            exact hacc
          · next items =>
            by_cases hempty : items = []
            · rw [if_pos hempty] at h
              injection h with h
              subst h
              exact hacc
            · rw [if_neg hempty] at h
              have hacc2 : ∀ it ∈ acc ++ items.filterMap processItem, it.title ≠ "" := by
                intro it hit
                rcases List.mem_append.mp hit with hmem | hmem
                · exact hacc it hmem
                · rcases List.mem_filterMap.mp hmem with ⟨r, _, hr⟩
                  exact processItem_title_ne r it hr
              split at h
              · injection h with h
                subst h
                exact hacc2
              · split at h
                · injection h with h
                  subst h
                  exact hacc2
                · exact ih _ _ _ _ hacc2 h

/-- C6: a record whose title strips to the empty string after HTML removal is
dropped by per-item processing, and consequently every canonical item in a
successful fetch result has a non-empty title. -/
theorem C6_title_drop (server : Nat → Response) (limit fuel : Nat) (res : List CanonicalItem)
    (h : fetchZoteroItems server limit fuel = some res) :
    (∀ r : RawItem, cleanHtml (some (r.data.title.getD "")) = "" → processItem r = none) ∧
    ∀ it ∈ res, it.title ≠ "" := by
  constructor
  · intro r hr
    exact (processItem_eq_none_iff r).mpr hr
  · exact fetchLoopGo_titles server limit fuel 0 none [] res (by simp) h

theorem C6_witness : itemA.title ≠ "" :=
  (C6_title_drop (sliceServer [recA] 100) 100 2 [itemA] (by decide)).2 itemA
    (List.mem_singleton.mpr rfl)

/-! ## Pagination over an honest sliced source (shared by C1 and C3) -/

/-- Against a source that serves a fixed record list in slices with a correct
total, the loop consumes the tail from the current offset: the offset starts
where the accumulated items end and advances by the number of records each
page actually carries. -/
theorem fetchLoopGo_slice (recs : List RawItem) (limit : Nat) (hl : 1 ≤ limit) :
    ∀ fuel start (acc : List CanonicalItem) (total : Option Int), 1 ≤ fuel →
      start ≤ recs.length →
      recs.length ≤ start + fuel * limit →
      (total = none ∨ total = some (recs.length : Int)) →
      fetchLoopGo (sliceServer recs limit) limit fuel start total acc
        = some (acc ++ (recs.drop start).filterMap processItem) := by
  intro fuel
  induction fuel with
  | zero =>
    intro start acc total h1
    exact absurd h1 (by omega)
  | succ n ih =>
    intro start acc total _ hstart hcov htot
    have hsrv : sliceServer recs limit start
        = Response.http 200 (some (recs.length : Int)) (some ((recs.drop start).take limit)) := rfl
    simp only [fetchLoopGo, hsrv]
    rw [if_neg (by norm_num), if_neg (by norm_num)]
    have htot2 : ∀ x : Option Int, x = none ∨ x = some (recs.length : Int) →
        (match x with
          | none => some (recs.length : Int)
          | some t => some t) = some (recs.length : Int) := by
      rintro x (rfl | rfl) <;> rfl
    rw [htot2 total htot]
    rcases Nat.lt_or_ge start recs.length with hlt | hge
    · -- records remain: the page is non-empty
      have hmlen : (recs.drop start).length = recs.length - start := List.length_drop start recs
      have hplen : ((recs.drop start).take limit).length = min limit (recs.length - start) := by
        rw [List.length_take, hmlen]
      have hpne : (recs.drop start).take limit ≠ [] := by
        intro hnil
        have := congrArg List.length hnil
        rw [hplen] at this
        simp at this
        omega
      rw [if_neg hpne]
      rcases le_or_lt (recs.length - start) limit with hsmall | hbig
      · -- final page: everything that remains fits
        have hpage : (recs.drop start).take limit = recs.drop start :=
          List.take_of_length_le (by rw [hmlen]; exact hsmall)
        have hstop : pageStop (some (recs.length : Int))
            (start + ((recs.drop start).take limit).length) := by
          refine ⟨by omega, ?_⟩
          rw [hplen]
          have heq : start + min limit (recs.length - start) = recs.length := by omega
          rw [heq]
        rw [if_pos hstop, hpage]
      · -- full page: the loop advances by the page length and continues
        have hplen2 : ((recs.drop start).take limit).length = limit := by
          rw [hplen]
          omega
        have hnostop : ¬ pageStop (some (recs.length : Int))
            (start + ((recs.drop start).take limit).length) := by
          rintro ⟨-, hle⟩
          rw [hplen2] at hle
          have : recs.length ≤ start + limit := by exact_mod_cast hle
          omega
        rw [if_neg hnostop, hplen2, if_neg (by omega)]
        have hcov2 : recs.length ≤ start + limit + n * limit := by
          have hmul : (n + 1) * limit = n * limit + limit := Nat.succ_mul n limit
          omega
        have hn1 : 1 ≤ n := by
          rcases Nat.eq_zero_or_pos n with rfl | h
          · simp at hcov2
            omega
          · exact h
        rw [ih (start + limit) (acc ++ List.filterMap processItem ((recs.drop start).take limit))
          (some (recs.length : Int)) hn1 (by omega) (by omega) (Or.inr rfl)]
        have hsplit : (recs.drop start).take limit ++ recs.drop (start + limit)
            = recs.drop start := by
          rw [← List.drop_drop, List.take_append_drop]
        rw [List.append_assoc, ← List.filterMap_append, hsplit]
    · -- past the end: the page is empty and the loop stops keeping `acc`
      have hnil : recs.drop start = [] := List.drop_eq_nil_iff.mpr hge
      rw [hnil]
      simp

/-! ## Claim C1 -/

/-- The spec's sort fixture, served by the remote source in the order
2020, 2022-05, absent, 2021-01-15 (titles A, B, C, D). -/
def cexRecs : List RawItem :=
  [mkRec "A" (some "2020"), mkRec "B" (some "2022-05"), mkRec "C" none,
   mkRec "D" (some "2021-01-15")]

/-- C1 counterexample: for items with dates 2020, 2022-05, absent, 2021-01-15
fetched in that order, `fetch_zotero_items` returns them in the same order —
A, B, C, D — and not in the claimed descending-date order B, D, A, C: the
accumulated items are never sorted client-side. -/
theorem C1_counterexample :
    (fetchZoteroItems (sliceServer cexRecs 100) 100 2).map
        (fun l => l.map (fun it => (it.title, it.year)))
      = some [("A", some "2020"), ("B", some "2022"), ("C", none), ("D", some "2021")]
    ∧ (fetchZoteroItems (sliceServer cexRecs 100) 100 2).map (fun l => l.map (fun it => it.title))
      ≠ some ["B", "D", "A", "C"] := by decide

/-- C1 as amended: after pagination completes, the Fetcher performs no sort at
all — the returned list is exactly the per-record processing of the source's
records in fetch order, so the output ordering follows whatever order the
remote side returns (i.e. the server-side sort parameters), rather than being
independent of it. -/
theorem C1_fetch_order (recs : List RawItem) (limit fuel : Nat)
    (hl : 1 ≤ limit) (hf : 1 ≤ fuel) (hcov : recs.length ≤ fuel * limit) :
    fetchZoteroItems (sliceServer recs limit) limit fuel
      = some (recs.filterMap processItem) := by
  have h := fetchLoopGo_slice recs limit hl fuel 0 [] none hf (Nat.zero_le _)
    (by omega) (Or.inl rfl)
  simpa using h

theorem C1_witness :
    fetchZoteroItems (sliceServer cexRecs 100) 100 1 = some (cexRecs.filterMap processItem) :=
  C1_fetch_order cexRecs 100 1 (by omega) (by omega) (by decide)

/-! ## Claim C3 -/

/-- Per-record processing drops exactly the records whose cleaned title is
empty, so the emitted and dropped counts partition the input. -/
theorem filterMap_processItem_length (recs : List RawItem) :
    (recs.filterMap processItem).length
      + (recs.filter (fun r => cleanHtml (some (r.data.title.getD "")) == "")).length
      = recs.length := by
  induction recs with
  | nil => rfl
  | cons r rs ih =>
    by_cases hr : cleanHtml (some (r.data.title.getD "")) = ""
    · have hnone : processItem r = none := (processItem_eq_none_iff r).mpr hr
      simp only [List.filterMap_cons, List.filter_cons, hnone, hr]
      simp only [beq_self_eq_true, if_true, List.length_cons]
      omega
    · have hbeq : (cleanHtml (some (r.data.title.getD "")) == "") = false := by
        simpa using hr
      cases hpi : processItem r with
      | none => exact absurd ((processItem_eq_none_iff r).mp hpi) hr
      | some it =>
        simp only [List.filterMap_cons, List.filter_cons, hpi, hbeq,
          Bool.false_eq_true, if_false, List.length_cons]
        omega

/-- C3: against a source of N records served in pages of size P (with a
correct total header), the fetch starts at offset 0, advances by the number
of records actually returned, and ends having returned the per-record
processing of all N records — whose count is N minus the number of records
lacking a title — whether or not N is a multiple of P. -/
theorem C3_pagination_completeness (recs : List RawItem) (P fuel : Nat)
    (hP : 1 ≤ P) (hf : 1 ≤ fuel) (hcov : recs.length ≤ fuel * P) :
    fetchZoteroItems (sliceServer recs P) P fuel = some (recs.filterMap processItem) ∧
    (recs.filterMap processItem).length
      + (recs.filter (fun r => cleanHtml (some (r.data.title.getD "")) == "")).length
      = recs.length := by
  refine ⟨?_, filterMap_processItem_length recs⟩
  have h := fetchLoopGo_slice recs P hP fuel 0 [] none hf (Nat.zero_le _)
    (by omega) (Or.inl rfl)
  simpa using h

/-- Three records (one of them titleless) in pages of two: N = 3 is not a
multiple of P = 2, and the fetch returns 3 - 1 = 2 items. -/
def recs3 : List RawItem := [mkRec "A" none, mkRec "" none, mkRec "C" none]

theorem C3_witness :
    fetchZoteroItems (sliceServer recs3 2) 2 2 = some (recs3.filterMap processItem) ∧
    (recs3.filterMap processItem).length
      + (recs3.filter (fun r => cleanHtml (some (r.data.title.getD "")) == "")).length
      = recs3.length :=
  C3_pagination_completeness recs3 2 2 (by omega) (by omega) (by decide)

/-! ## Claim C8: facts about `str.strip` invariance -/

/-- A string unchanged by `str.strip()`. -/
def stripClean (s : String) : Prop := pyStrip s = s

theorem stripR_length_le (l : List Char) : (stripR l).length ≤ l.length := by
  unfold stripR
  rw [List.length_reverse]
  calc (l.reverse.dropWhile isPySpace).length
      ≤ l.reverse.length := (List.dropWhile_sublist _).length_le
    _ = l.length := List.length_reverse l

theorem stripList_length_le (l : List Char) : (stripList l).length ≤ l.length := by
  unfold stripList stripL
  calc (stripR (l.dropWhile isPySpace)).length
      ≤ (l.dropWhile isPySpace).length := stripR_length_le _
    _ ≤ l.length := (List.dropWhile_sublist _).length_le

/-- Stripping is the identity on a list whose first and last characters are
not whitespace. -/
theorem stripList_eq_self_of (l : List Char)
    (h1 : ∀ c, l.head? = some c → isPySpace c = false)
    (h2 : ∀ c, l.getLast? = some c → isPySpace c = false) :
    stripList l = l := by
  cases l with
  | nil => rfl
  | cons c t =>
    have hc : isPySpace c = false := h1 c rfl
    unfold stripList stripL stripR
    rw [List.dropWhile_cons, hc]
    simp only [Bool.false_eq_true, if_false]
    cases hrev : (c :: t).reverse with
    | nil => exact absurd (congrArg List.length hrev) (by simp)
    | cons d tr =>
      have hd : isPySpace d = false := by
        refine h2 d ?_
        rw [← List.head?_reverse, hrev]
        rfl
      rw [List.dropWhile_cons, hd]
      simp only [Bool.false_eq_true, if_false]
      rw [← hrev, List.reverse_reverse]

theorem data_ne_nil_of_ne_empty (s : String) (h : s ≠ "") : s.data ≠ [] := by
  intro hd
  exact h (String.ext hd)

/-- The first character of a strip-invariant non-empty string is not
whitespace. -/
theorem stripClean_head (s : String) (h : stripClean s) (hne : s ≠ "") :
    ∀ c, s.data.head? = some c → isPySpace c = false := by
  intro c hc
  by_contra hsp
  rw [Bool.not_eq_false] at hsp
  have hdata : stripList s.data = s.data := congrArg String.data h
  have hd := data_ne_nil_of_ne_empty s hne
  cases hl : s.data with
  | nil => exact hd hl
  | cons a t =>
    rw [hl] at hc
    have hac : a = c := by
      have := hc
      simp only [List.head?] at this
      injection this
    subst hac
    have hlen1 : (stripL (a :: t)).length ≤ t.length := by
      unfold stripL
      rw [List.dropWhile_cons, hsp]
      simp only [if_true]
      exact (List.dropWhile_sublist _).length_le
    have hlen2 : (stripList (a :: t)).length ≤ t.length :=
      le_trans (stripR_length_le _) hlen1
    rw [hl] at hdata
    have := congrArg List.length hdata
    simp only [List.length_cons] at this
    omega

/-- The last character of a strip-invariant non-empty string is not
whitespace. -/
theorem stripClean_last (s : String) (h : stripClean s) (hne : s ≠ "") :
    ∀ c, s.data.getLast? = some c → isPySpace c = false := by
  intro c hc
  by_contra hsp
  rw [Bool.not_eq_false] at hsp
  have hdata : stripList s.data = s.data := congrArg String.data h
  have hd := data_ne_nil_of_ne_empty s hne
  -- first: the leading strip is already the identity
  have hL : stripL s.data = s.data := by
    have hle1 : (stripList s.data).length ≤ (stripL s.data).length := stripR_length_le _
    have hle2 : (stripL s.data).length ≤ s.data.length := (List.dropWhile_sublist _).length_le
    have hlen : (stripL s.data).length = s.data.length := by
      have := congrArg List.length hdata
      omega
    exact (List.dropWhile_sublist _).eq_of_length hlen
  have hR : stripR s.data = s.data := by
    have : stripList s.data = stripR s.data := by unfold stripList; rw [hL]
    rw [← this, hdata]
  -- now the reversed list starts with the whitespace last character
  have hrevhead : s.data.reverse.head? = some c := by
    rw [List.head?_reverse]
    exact hc
  cases hrev : s.data.reverse with
  | nil =>
    rw [hrev] at hrevhead
    exact absurd hrevhead (by simp)
  | cons d tr =>
    have hdc : d = c := by
      rw [hrev] at hrevhead
      simp only [List.head?] at hrevhead
      injection hrevhead
    subst hdc
    have hlen1 : (s.data.reverse.dropWhile isPySpace).length ≤ tr.length := by
      rw [hrev, List.dropWhile_cons, hsp]
      simp only [if_true]
      exact (List.dropWhile_sublist _).length_le
    have hlen2 := congrArg List.length hR
    unfold stripR at hlen2
    rw [List.length_reverse] at hlen2
    have hlen3 : s.data.length = s.data.reverse.length := (List.length_reverse _).symm
    rw [hrev] at hlen3
    simp only [List.length_cons] at hlen3
    omega

theorem stripClean_of_ends (s : String)
    (h1 : ∀ c, s.data.head? = some c → isPySpace c = false)
    (h2 : ∀ c, s.data.getLast? = some c → isPySpace c = false) :
    stripClean s := by
  unfold stripClean pyStrip
  exact String.ext (stripList_eq_self_of s.data h1 h2)

/-- The property `stripClean` is decidable (it is a string equality). -/
instance (s : String) : Decidable (stripClean s) := by
  unfold stripClean
  infer_instance

theorem append_ne_empty (a b : String) (hb : b ≠ "") : a ++ b ≠ "" := by
  intro h
  apply data_ne_nil_of_ne_empty b hb
  have hd : (a ++ b).data = [] := by rw [h]
  rw [String.data_append] at hd
  exact (List.append_eq_nil.mp hd).2

theorem getLast_data_append (a b : String) (hb : b ≠ "") :
    (a ++ b).data.getLast? = b.data.getLast? := by
  rw [String.data_append, List.getLast?_append]
  cases hg : b.data.getLast? with
  | none =>
    have := List.getLast?_isSome (l := b.data)
    rw [hg] at this
    simp at this
    exact absurd this (data_ne_nil_of_ne_empty b hb)
  | some d => rfl

/-- Strip-invariance survives concatenation through any separator, as the
outer characters come from the outer operands. -/
theorem stripClean_append (a mid b : String) (ha : a ≠ "") (hsa : stripClean a)
    (hb : b ≠ "") (hsb : stripClean b) : stripClean (a ++ mid ++ b) := by
  apply stripClean_of_ends
  · intro c hc
    have hda := data_ne_nil_of_ne_empty a ha
    rw [String.data_append, String.data_append, List.append_assoc,
      List.head?_append_of_ne_nil _ hda] at hc
    exact stripClean_head a hsa ha c hc
  · intro c hc
    rw [getLast_data_append _ b hb] at hc
    exact stripClean_last b hsb hb c hc

theorem paren_ne_empty (y : String) : ("(" ++ y ++ ")") ≠ "" :=
  append_ne_empty _ _ (by decide)

theorem stripClean_paren (y : String) : stripClean ("(" ++ y ++ ")") :=
  stripClean_append "(" y ")" (by decide) (by decide) (by decide) (by decide)

/-- Past the first part, the source's joining loop produces exactly the
spec's separator-based join, provided every remaining part is non-empty and
strip-invariant; the running string stays non-empty, strip-invariant, and
ends with the character the previous part ends with. -/
theorem rssJoinGo_eq (ps : List String) :
    ∀ (i : Nat) (acc prev : String), i ≠ 0 → acc ≠ "" → stripClean acc →
      acc.data.getLast? = prev.data.getLast? →
      (∀ p ∈ ps, p ≠ "" ∧ stripClean p) →
      rssJoinGo i acc ps = specJoinGo prev acc ps
        ∧ stripClean (specJoinGo prev acc ps) ∧ specJoinGo prev acc ps ≠ "" := by
  induction ps with
  | nil =>
    intro i acc prev _ hne hsc _ _
    exact ⟨rfl, hsc, hne⟩
  | cons p ps ih =>
    intro i acc prev hi hne hsc hlast hps
    obtain ⟨hpne, hpsc⟩ := hps p (List.mem_cons_self p ps)
    have hps' : ∀ q ∈ ps, q ≠ "" ∧ stripClean q := fun q hq =>
      hps q (List.mem_cons_of_mem p hq)
    simp only [rssJoinGo, specJoinGo]
    rw [hpsc, if_neg hpne, if_neg hi, hsc]
    by_cases hpar : headIs p '(' = true
    · rw [if_pos hpar]
      have hsep : specSep prev p = " " := by
        unfold specSep
        rw [if_pos hpar]
      rw [hsep]
      exact ih (i + 1) (acc ++ " " ++ p) p (Nat.succ_ne_zero i)
        (append_ne_empty _ _ hpne) (stripClean_append acc " " p hne hsc hpne hpsc)
        (getLast_data_append _ p hpne) hps'
    · rw [if_neg hpar]
      by_cases hrp : lastIs acc ')' = true
      · have hcond : ¬ (acc ≠ "" ∧ ¬ lastIs acc ')' = true) := by simp [hrp]
        rw [if_neg hcond]
        have hprev : lastIs prev ')' = true := by
          unfold lastIs at hrp ⊢
          rw [← hlast]
          exact hrp
        have hsep : specSep prev p = " " := by
          unfold specSep
          rw [if_neg hpar, if_pos hprev]
        rw [hsep]
        exact ih (i + 1) (acc ++ " " ++ p) p (Nat.succ_ne_zero i)
          (append_ne_empty _ _ hpne) (stripClean_append acc " " p hne hsc hpne hpsc)
          (getLast_data_append _ p hpne) hps'
      · have hcond : acc ≠ "" ∧ ¬ lastIs acc ')' = true := ⟨hne, hrp⟩
        rw [if_pos hcond]
        have hprev : ¬ lastIs prev ')' = true := by
          unfold lastIs at hrp ⊢
          rw [← hlast]
          exact hrp
        have hsep : specSep prev p = ". " := by
          unfold specSep
          rw [if_neg hpar, if_neg hprev]
        rw [hsep]
        have hdot : acc ++ "." ++ " " = acc ++ ". " := by
          rw [String.append_assoc]
          rfl
        rw [hdot]
        exact ih (i + 1) (acc ++ ". " ++ p) p (Nat.succ_ne_zero i)
          (append_ne_empty _ _ hpne) (stripClean_append acc ". " p hne hsc hpne hpsc)
          (getLast_data_append _ p hpne) hps'

/-- The full joining loop, entered at index 0 with an empty accumulator,
computes the spec's join of the (all non-empty, strip-invariant) parts. -/
theorem rssJoin_eq_specTitle (L : List String) (hL : ∀ p ∈ L, p ≠ "" ∧ stripClean p) :
    pyStrip (rssJoinGo 0 "" L) = specTitle L := by
  have hfilter : L.filter (fun p => p != "") = L :=
    List.filter_eq_self.mpr (fun p hp => by simp [(hL p hp).1])
  unfold specTitle
  rw [hfilter]
  cases L with
  | nil => decide
  | cons p ps =>
    obtain ⟨hpne, hpsc⟩ := hL p (List.mem_cons_self p ps)
    have hps' : ∀ q ∈ ps, q ≠ "" ∧ stripClean q := fun q hq =>
      hL q (List.mem_cons_of_mem p hq)
    simp only [rssJoinGo]
    rw [hpsc, if_neg hpne, if_true]
    have h0 : ("" : String) ++ p = p := by cases p; rfl
    rw [h0]
    obtain ⟨heq, hsc, -⟩ := rssJoinGo_eq ps 1 p p one_ne_zero hpne hpsc rfl hps'
    rw [heq]
    exact hsc

/-- C8: for every canonical item (title non-empty; the display fields
strip-invariant, as the pipeline produces them), the RSS item title computed
by `create_rss_feed` equals the spec's described join of the non-empty parts
among authors, `(year)`, paper title, journal and volume — `". "` between
successive parts except a single space before a part starting with `(` and no
period after a part ending in `)`. -/
theorem C8_title_concat (it : CanonicalItem)
    (hT : it.title ≠ "") (hTc : stripClean it.title)
    (hA : stripClean it.authors) (hJ : stripClean it.journal) (hV : stripClean it.volume)
    (hY : ∀ y, it.year = some y → y ≠ "") :
    rssItemTitle it = specTitle (specParts it) := by
  have hfp : (specParts it).filter (fun p => p != "") = titleParts it := by
    unfold specParts titleParts
    cases hy : it.year with
    | none =>
      by_cases ha : it.authors = "" <;> by_cases hj : it.journal = "" <;>
        by_cases hv : it.volume = "" <;>
        simp [List.filter_cons, ha, hj, hv, hT]
    | some y =>
      have hyne : y ≠ "" := hY y hy
      have hp := paren_ne_empty y
      by_cases ha : it.authors = "" <;> by_cases hj : it.journal = "" <;>
        by_cases hv : it.volume = "" <;>
        simp [List.filter_cons, ha, hj, hv, hT, hyne, hp]
  have hall : ∀ p ∈ titleParts it, p ≠ "" ∧ stripClean p := by
    intro p hp
    rw [← hfp] at hp
    have hpb := List.of_mem_filter hp
    have hpm := List.mem_of_mem_filter hp
    refine ⟨by simpa using hpb, ?_⟩
    unfold specParts at hpm
    simp only [List.mem_cons, List.not_mem_nil, or_false] at hpm
    rcases hpm with rfl | rfl | rfl | rfl | rfl
    · exact hA
    · cases it.year with
      | none => decide
      | some y => exact stripClean_paren y
    · exact hTc
    · exact hJ
    · exact hV
  have hfilter2 : (titleParts it).filter (fun p => p != "") = titleParts it :=
    List.filter_eq_self.mpr (fun p hp => by simp [(hall p hp).1])
  unfold rssItemTitle
  rw [rssJoin_eq_specTitle (titleParts it) hall]
  unfold specTitle
  rw [hfp, hfilter2]

/-- A representative canonical item for the title rule. -/
def sampleItem : CanonicalItem :=
  ⟨some "K1", "Smith, J; Doe, A", some "2020", "Tide Dynamics", "JGR", "7", none, ["2020"]⟩

theorem C8_witness : rssItemTitle sampleItem = specTitle (specParts sampleItem) :=
  C8_title_concat sampleItem (by decide) (by decide) (by decide) (by decide) (by decide)
    (fun y hy => by injection hy with h; subst h; decide)

end ZoteroFeed

namespace ZoteroFeed

-- scratch checks
example : cleanHtml (some "<b>Hi &amp; Lo</b> ") = "Hi & Lo" := by decide
example : cleanHtml (some "<i></i> ") = "" := by decide
example : extractYear (some "2021-01-15") = some "2021" := by decide
example : extractYear (some "12345") = none := by decide
example : extractYear (some "x 1999.") = some "1999" := by decide
example : formatAuthors [⟨"author", "Smith", "J", none⟩, ⟨"author", "Doe", "A", none⟩]
    = "Smith, J; Doe, A" := by decide
example : formatAuthorsSingle [⟨"author", "Smith", "J", none⟩, ⟨"author", "Doe", "A", none⟩]
    = "Smith, J et al." := by decide
example : formatAuthors [⟨"editor", "Smith", "J", none⟩, ⟨"author", "", "", some " IAU "⟩]
    = "IAU" := by decide

example : stripDoiNoise "doi: 10.5194/acp-12-857-2012" = "10.5194/acp-12-857-2012" := by decide
example : pyQuote "10.5194/acp-12-857-2012" "/:()._-" = "10.5194/acp-12-857-2012" := by decide
example : pyQuote "a b(c)" "/:()._-" = "a%20b(c)" := by decide
example :
    doiLinkJson ⟨none, none, [], none, some "doi: 10.5194/acp-12-857-2012", none, none, none, none⟩
      = some "https://doi.org/10.5194/acp-12-857-2012" := by decide
example :
    findBestLinkJson ⟨none, none, [], none, some "https://doi.org/10.1000/a b", none, none, none, none⟩
      = some "https://doi.org/10.1000/a%20b" := by decide
example :
    findBestLinkJson ⟨none, none, [], none, none, some " https://example.org/x y?q=1#f ", none, none, none⟩
      = some "https://example.org/x%20y?q=1#f" := by decide
example :
    findBestLinkJson ⟨none, none, [], none, some "  ", some "ftp://x", none, none, none⟩ = none := by
  decide
example : getCategoriesJson (some "2020") = ["2020"] := by decide
example : getCategoriesJson (some "20x0") = [] := by decide
example : getCategoriesJson none = [] := by decide

-- fetch scratch checks
example :
    fetchZoteroItems (sliceServer [mkRec "A" (some "2020"), mkRec "B" none] 100) 100 2
      = some [⟨some "KA", "", some "2020", "A", "", "", none, ["2020"]⟩,
              ⟨some "KB", "", none, "B", "", "", none, []⟩] := by decide

example :
    fetchZoteroItems (sliceServer [mkRec "A" none, mkRec "B" none, mkRec "C" none] 2) 2 3
      = some [⟨some "KA", "", none, "A", "", "", none, []⟩,
              ⟨some "KB", "", none, "B", "", "", none, []⟩,
              ⟨some "KC", "", none, "C", "", "", none, []⟩] := by decide

example :
    (fetchZoteroItems (sliceServer [mkRec "" none, mkRec "B" none] 100) 100 2).map
      (fun l => l.map (fun it => it.title)) = some ["B"] := by decide

example :
    rssItemTitle ⟨none, "Smith, J", some "2020", "Tide", "JGR", "7", none, []⟩
      = "Smith, J (2020) Tide. JGR. 7" := by decide
example :
    rssItemTitle ⟨none, "", none, "Tide", "", "", none, []⟩ = "Tide" := by decide
example :
    specTitle ["Smith, J", "(2020)", "Tide", "JGR", "7"]
      = "Smith, J (2020) Tide. JGR. 7" := by decide

end ZoteroFeed
